import Mathlib

/-!
Verification of the autodidax forward-mode autodiff core.

The embedding follows `src/autodidax/core.py` and `src/autodidax/autodiff.py`.
Naming note: `autodiff.py` refers to the interpreter machinery of `core.py`
by its pre-rename names (`Trace` for `Interpreter`, `new_main_trace` for
`new_interpreter`, `apply_prim` for the JVP interpreter's `interp` method,
`_trace` for `_interpreter`); the embedding uses the `core.py` names and the
spec's description of the JVP scope where the two files disagree on names.

Numeric kernels (numpy) are the spec's "trusted collaborator": they are
modelled on the fragment of inputs the core exercises (real scalars and
real-valued dense arrays); combinations outside that fragment are mapped to
an error value and are not used by any theorem.
-/

namespace Autodidax

/- Real-number comparisons (the collaborator's float comparisons) are
classically decidable only, so the development is noncomputable; concrete
runs are still evaluated definitionally (by `rfl`) in the witnesses. -/
noncomputable section

/-- Element dtypes that occur in the modelled value universe
(`JAX_TYPES` of core.py contains bool, int, float and their numpy versions;
ints are folded into the real-scalar case since the core treats them alike). -/
inductive DType where
  | float64
  | boolean
  deriving DecidableEq, Repr

/-- Raw (non-Tracer) Python values.  `f` is a real scalar (Python/numpy
float), `b` a Python/numpy bool, `arr` a dense row-major real array with its
shape, and `obj` stands for any Python object whose type is outside
`JAX_TYPES` (e.g. a str), used to exercise the unsupported-type paths. -/
inductive Raw where
  | f (x : ℝ)
  | b (v : Bool)
  | arr (shape : List Nat) (data : List ℝ)
  | obj

/-- Interpreter kind: the evaluation interpreter (`EvalInterpreter`) or the
forward-mode interpreter (`JVPTrace`). -/
inductive IKind where
  | eval
  | jvp
  deriving DecidableEq, Repr

/-- An interpretation context (`Interpreter` NamedTuple of core.py).
`level` is the field of the NamedTuple; `uid` models Python object identity
(`is`), which distinguishes separately-constructed instances; `kind` selects
which subclass's `pure`/`lift`/`interp` run.  `global_data` is always None in
this codebase and is omitted. -/
structure Interpreter where
  level : Nat
  uid : Nat
  kind : IKind
  deriving DecidableEq, Repr

/-- The base evaluation interpreter `EvalInterpreter(level=0)` installed at
the bottom of `INTERPRETER_STACK` at module initialization. -/
def evalInterpreter : Interpreter := ⟨0, 0, IKind.eval⟩

/-- A value as seen by `bind`: either a raw value or a Tracer.  The only
Tracer class in the codebase is `JVPTracer(trace, primal, tangent)`; its
owning interpreter and its primal/tangent payloads are the fields. -/
inductive V where
  | raw (r : Raw)
  | tracer (interpreter : Interpreter) (primal : V) (tangent : V)

/-- Abstract values: `ShapedArray{shape, dtype}` and its refinement
`ConcreteArray{val}` (whose shape/dtype are those of `val`). -/
inductive Aval where
  | shaped (shape : List Nat) (dtype : DType)
  | concrete (val : Raw)

/-- Error taxonomy.  The Python code raises untyped `Exception`s / `assert`s;
each constructor corresponds to one raise site, named after the spec's
taxonomy: `levelError` ("Can't lift level a to b", full_raise),
`interpreterConflict` ("Different interpreters at same level", full_raise),
`unsupportedType` (the `assert type(arg) in JAX_TYPES` of full_raise),
`missingRule` (KeyError on a rule table), `ambiguity` (ShapedArray._bool),
`valueError` / `typeError` / `attributeError` (Python builtin errors raised
by unpacking, numpy kernels, or attribute access), `outOfFuel` (artificial
recursion bound of the embedding, never reached in any verified run). -/
inductive Err where
  | levelError (fromLevel toLevel : Nat)
  | interpreterConflict
  | unsupportedType
  | missingRule
  | ambiguity
  | valueError
  | typeError
  | attributeError
  | outOfFuel
  deriving DecidableEq, Repr

/-- The process-wide mutable state of core.py: `INTERPRETER_STACK` and
`DYNAMIC_INTERPRETER`. -/
structure CoreState where
  stack : List Interpreter
  dyn : Option Interpreter
  deriving DecidableEq, Repr

/-- The state at module initialization: stack `[EvalInterpreter(level=0)]`,
no dynamic interpreter. -/
def initState : CoreState := ⟨[evalInterpreter], none⟩

/-- Computation monad of the embedding: Python code reading/mutating the
process-wide state and possibly raising.  A raised error carries the state
at the raise point (Python exceptions do not roll back global state). -/
def M (α : Type) : Type := CoreState → Except Err α × CoreState

/-- Return a value, leaving the state unchanged. -/
def mOk {α : Type} (a : α) : M α := fun st => (Except.ok a, st)

/-- Raise an error, leaving the state unchanged. -/
def mThrow {α : Type} (e : Err) : M α := fun st => (Except.error e, st)

/-- Sequence two computations; an error short-circuits. -/
def mBind {α β : Type} (m : M α) (f : α → M β) : M β := fun st =>
  match m st with
  | (Except.ok a, st') => f a st'
  | (Except.error e, st') => (Except.error e, st')

instance : Monad M where
  pure := mOk
  bind := mBind

/-- Lift a pure fallible result into the monad. -/
def mOfExcept {α : Type} (x : Except Err α) : M α := fun st => (x, st)

/-- Effectful map over a list (used for operand raising and output lowering). -/
def mMapM {α β : Type} (f : α → M β) : List α → M (List β)
  | [] => mOk []
  | a :: as => mBind (f a) (fun b => mBind (mMapM f as) (fun bs => mOk (b :: bs)))

@[simp] theorem mBind_apply {α β : Type} (m : M α) (f : α → M β) (st : CoreState) :
    mBind m f st = match m st with
      | (Except.ok a, st') => f a st'
      | (Except.error e, st') => (Except.error e, st') := rfl

@[simp] theorem mOk_apply {α : Type} (a : α) (st : CoreState) :
    mOk a st = (Except.ok a, st) := rfl

@[simp] theorem mThrow_apply {α : Type} (e : Err) (st : CoreState) :
    (mThrow e : M α) st = (Except.error e, st) := rfl

@[simp] theorem mOfExcept_apply {α : Type} (x : Except Err α) (st : CoreState) :
    mOfExcept x st = (x, st) := rfl

/-- Shape of a raw value as numpy sees it (`np.asarray(x).shape`): scalars
are 0-dimensional. -/
def rawShape : Raw → List Nat
  | Raw.f _ => []
  | Raw.b _ => []
  | Raw.arr s _ => s
  | Raw.obj => []

/-- Dtype of a raw value as numpy sees it.  Modelled arrays are real-valued
(`float64`); `obj` never reaches a dtype query in a verified run. -/
def rawDtype : Raw → DType
  | Raw.f _ => DType.float64
  | Raw.b _ => DType.boolean
  | Raw.arr _ _ => DType.float64
  | Raw.obj => DType.float64

/-- Membership test `type(x) in JAX_TYPES` for raw values: the scalar and
array constructors are supported, `obj` is not. -/
def rawSupported : Raw → Bool
  | Raw.obj => false
  | _ => true

/-- Projections of an abstract value.  `ConcreteArray.__init__` copies
`val.shape` / `val.dtype` into the instance. -/
def Aval.shape : Aval → List Nat
  | Aval.shaped s _ => s
  | Aval.concrete v => rawShape v

/-- Dtype projection of an abstract value. -/
def Aval.dtype : Aval → DType
  | Aval.shaped _ d => d
  | Aval.concrete v => rawDtype v

/-- Embeds `get_aval` of core.py: a Tracer reports its `aval` property,
which for `JVPTracer` is `get_aval(self.primal)`; a raw value of a supported
type is wrapped as `ConcreteArray(np.asarray(x))`; anything else raises
TypeError. -/
def get_aval : V → Except Err Aval
  | V.tracer _ p _ => get_aval p
  | V.raw r =>
      if rawSupported r then Except.ok (Aval.concrete r) else Except.error Err.typeError

/-- Zero scalar of a dtype (`np.zeros((), dtype)`). -/
def zeroOfDtype : DType → Raw
  | DType.float64 => Raw.f 0
  | DType.boolean => Raw.b false

/-- Embeds `np.zeros_like(aval, aval.dtype)` from `JVPTrace.to_tracer` and
the greater/less JVP rules.  The first argument is an abstract-value OBJECT,
not an array: numpy converts it with `np.asarray`, which (since
ShapedArray/ConcreteArray implement no array or sequence protocol) yields a
0-dimensional object array, so the result is the 0-dimensional zero of the
requested dtype, REGARDLESS of `aval.shape`. -/
def zeros_like_aval (a : Aval) : Raw := zeroOfDtype a.dtype

/-- Embeds `JVPTrace.to_tracer`: pair the value with the zero produced by
`np.zeros_like(aval, aval.dtype)` (see `zeros_like_aval`). -/
def to_tracer (i : Interpreter) (val : V) : Except Err V :=
  match get_aval val with
  | Except.ok aval => Except.ok (V.tracer i val (V.raw (zeros_like_aval aval)))
  | Except.error e => Except.error e

/-- Dispatch of the `pure` capability: `EvalInterpreter.pure` is the
identity, `JVPTrace.pure` is `to_tracer`. -/
def pureI (i : Interpreter) (val : V) : Except Err V :=
  match i.kind with
  | IKind.eval => Except.ok val
  | IKind.jvp => to_tracer i val

/-- Dispatch of the `lift` capability: `EvalInterpreter.lift` is the
identity, `JVPTrace.lift` is `to_tracer`. -/
def liftI (i : Interpreter) (val : V) : Except Err V :=
  match i.kind with
  | IKind.eval => Except.ok val
  | IKind.jvp => to_tracer i val

/-- Embeds `full_raise` of core.py.  Tracer operands: identical interpreter
passes through, a strictly lower level is lifted, a strictly higher level
raises ("Can't lift level a to b"), a distinct same-level instance raises
("Different interpreters at same level").  Non-Tracer operands: the
`assert type(arg) in JAX_TYPES` check, then `interpreter.pure`. -/
def full_raise (interpreter : Interpreter) : V → Except Err V
  | V.tracer argInterp p t =>
      if argInterp = interpreter then Except.ok (V.tracer argInterp p t)
      else if argInterp.level < interpreter.level then
        liftI interpreter (V.tracer argInterp p t)
      else if argInterp.level > interpreter.level then
        Except.error (Err.levelError argInterp.level interpreter.level)
      else Except.error Err.interpreterConflict
  | V.raw r =>
      if rawSupported r then pureI interpreter (V.raw r)
      else Except.error Err.unsupportedType

/-- Embeds `full_lower`: `Tracer.full_lower` returns `self` and non-Tracers
are returned as given, so the function is the identity on every value of
this codebase. -/
def full_lower (arg : V) : V := arg

/-- The interpreter of a Tracer operand (`arg.interpreter` guarded by
`isinstance(arg, Tracer)`). -/
def V.interpreterOf : V → Option Interpreter
  | V.tracer i _ _ => some i
  | V.raw _ => none

/-- Python `max(interpreters, default=d)` under `Interpreter.__gt__`
(level comparison): fold keeping the current maximum, replacing it only on
a strictly greater level, so the first of several maxima wins. -/
def maxByLevel : List Interpreter → Interpreter → Interpreter
  | [], d => d
  | h :: t, _ => t.foldl (fun m i => if i.level > m.level then i else m) h

/-- Embeds `find_top_interpreter`: the maximum-level interpreter among
Tracer operands, defaulting to `INTERPRETER_STACK[0]` (always the base
evaluation interpreter in a reachable state, which the default of `headD`
mirrors), then promoted to `DYNAMIC_INTERPRETER` when that is set and has a
strictly greater level. -/
def find_top_interpreter (st : CoreState) (args : List V) : Interpreter :=
  let interpreters := args.filterMap V.interpreterOf
  let top := maxByLevel interpreters (st.stack.headD evalInterpreter)
  match st.dyn with
  | some d => if d.level > top.level then d else top
  | none => top

/-- Embeds the `new_interpreter` context manager: construct an interpreter
of the given kind at `level = len(INTERPRETER_STACK)` (with a fresh
identity), push it, run the body, and pop the most recently pushed entry on
every exit path (the `try/finally`), error or not. -/
def new_interpreter {α : Type} (kind : IKind) (body : Interpreter → M α) : M α :=
  fun st =>
    let i : Interpreter := ⟨st.stack.length, st.stack.length, kind⟩
    let r := body i { st with stack := st.stack ++ [i] }
    (r.1, { r.2 with stack := r.2.stack.dropLast })

/-- Embeds the `new_dynamic_interpreter` context manager: stash the previous
dynamic interpreter, install the given one, and restore on every exit path. -/
def new_dynamic_interpreter {α : Type} (i : Interpreter) (body : M α) : M α :=
  fun st =>
    let r := body { st with dyn := some i }
    (r.1, { r.2 with dyn := st.dyn })

/-- The primitive tokens of `PrimitiveToken`, compared by identity (a closed
enumeration). -/
inductive Primitive where
  | add
  | mul
  | neg
  | sin
  | cos
  | greater
  | less
  | transpose
  | broadcast
  | reduce_sum
  | xla_call
  deriving DecidableEq, Repr

/-- Keyword parameters passed through `bind`: none for elementwise
primitives, `perm=` for transpose, `shape=`/`axes=` for broadcast, `axis=`
(already normalized to a tuple by the operator wrapper) for reduce_sum. -/
inductive Params where
  | noParams
  | permP (perm : List Nat)
  | broadcastP (shape : List Nat) (axes : List Nat)
  | axisP (axis : List Nat)

/-- Row-major flat position of a multi-index in a shape. -/
def posOf : List Nat → List Nat → Nat
  | [], _ => 0
  | _ :: rest, ix => ix.headD 0 * rest.prod + posOf rest ix.tail

/-- Row-major multi-index of a flat position in a shape. -/
def idxOf : List Nat → Nat → List Nat
  | [], _ => []
  | _ :: rest, p => p / rest.prod :: idxOf rest (p % rest.prod)

/-- Interleave a kept-axes index and a removed-axes index according to a
mask (`true` marks a removed axis). -/
def mergeIdx : List Nat → List Nat → List Bool → List Nat
  | _, _, [] => []
  | oix, rix, true :: ms => rix.headD 0 :: mergeIdx oix rix.tail ms
  | oix, rix, false :: ms => oix.headD 0 :: mergeIdx oix.tail rix ms

/-- Insertion sort, ascending (used to model `sorted(...)` and to validate
permutations). -/
def insertAsc (x : Nat) : List Nat → List Nat
  | [] => [x]
  | y :: ys => if x ≤ y then x :: y :: ys else y :: insertAsc x ys

/-- Ascending sort of a list of naturals. -/
def sortAsc : List Nat → List Nat
  | [] => []
  | x :: xs => insertAsc x (sortAsc xs)

/-- Multi-axis sum, the semantics of the collaborator kernel
`np.sum(x, axis=tuple)` on a dense row-major real array: axes listed in
`ax` are summed out; an empty tuple sums nothing and returns the array
unchanged; a full reduction returns a numpy scalar (modelled `Raw.f`). -/
def npsum (s : List Nat) (d : List ℝ) (ax : List Nat) : Raw :=
  if ax.isEmpty then Raw.arr s d else
  let mask := (List.range s.length).map (fun j => ax.contains j)
  let ks := (s.zip mask).filterMap (fun p => if p.2 then none else some p.1)
  let rs := (s.zip mask).filterMap (fun p => if p.2 then some p.1 else none)
  let data := (List.range ks.prod).map (fun po =>
    ((List.range rs.prod).map (fun pr =>
      d.getD (posOf s (mergeIdx (idxOf ks po) (idxOf rs pr) mask)) 0)).sum)
  if ks.isEmpty then Raw.f (data.headD 0) else Raw.arr ks data

/-- Semantics of the collaborator kernel `np.transpose(x, perm)` on a dense
row-major real array. -/
def nptranspose (s : List Nat) (d : List ℝ) (perm : List Nat) : Raw :=
  let outShape := perm.map (fun j => s.getD j 0)
  Raw.arr outShape ((List.range outShape.prod).map (fun p =>
    let oix := idxOf outShape p
    d.getD (posOf s ((List.range s.length).map (fun j =>
      oix.getD (perm.indexOf j) 0))) 0))

/-- Insert singleton axes at the (sorted) output positions in `axes`
(`np.expand_dims(x, sorted(axes))`).  The first argument is descending
fuel equal to the output rank. -/
def insertOnes : Nat → Nat → List Nat → List Nat → List Nat
  | 0, _, _, _ => []
  | n + 1, j, axes, s =>
      if axes.contains j then 1 :: insertOnes n (j + 1) axes s
      else s.headD 1 :: insertOnes n (j + 1) axes s.tail

/-- Semantics of the collaborator kernel
`np.broadcast_to(np.expand_dims(x, sorted(axes)), shape)` on a dense
row-major real array: singleton axes are inserted, then each size-1 axis is
repeated to the target size. -/
def npbroadcast (s : List Nat) (d : List ℝ) (shape : List Nat)
    (axes : List Nat) : Except Err Raw :=
  let expanded := insertOnes (s.length + axes.length) 0 (sortAsc axes) s
  if expanded.length = shape.length ∧
      (expanded.zip shape).all (fun p => p.1 == p.2 || p.1 == 1) then
    Except.ok (Raw.arr shape ((List.range shape.prod).map (fun p =>
      d.getD (posOf expanded ((expanded.zip (idxOf shape p)).map (fun q =>
        if q.1 = 1 then 0 else q.2))) 0)))
  else Except.error Err.valueError

/-- Coercion of a scalar raw value to a real number, as numpy arithmetic
does (booleans count as 0/1); arrays and unsupported objects do not coerce. -/
def scalarOf : Raw → Option ℝ
  | Raw.f x => some x
  | Raw.b v => some (if v then 1 else 0)
  | _ => none

/-- Elementwise binary kernel on the modelled fragment: two real scalars, a
scalar broadcast against a real array, or two same-shape real arrays.
Combinations outside the fragment (which no theorem exercises) map to
`typeError`. -/
def rawBinop (op : ℝ → ℝ → ℝ) : Raw → Raw → Except Err Raw
  | Raw.f x, Raw.f y => Except.ok (Raw.f (op x y))
  | Raw.f x, Raw.arr s d => Except.ok (Raw.arr s (d.map (fun y => op x y)))
  | Raw.arr s d, Raw.f y => Except.ok (Raw.arr s (d.map (fun x => op x y)))
  | Raw.arr s d, Raw.arr s' d' =>
      if s = s' then Except.ok (Raw.arr s (List.zipWith op d d'))
      else Except.error Err.typeError
  | _, _ => Except.error Err.typeError

/-- Elementwise unary kernel on the modelled fragment (real scalar or real
array). -/
def rawUnop (op : ℝ → ℝ) : Raw → Except Err Raw
  | Raw.f x => Except.ok (Raw.f (op x))
  | Raw.arr s d => Except.ok (Raw.arr s (d.map op))
  | _ => Except.error Err.typeError

/-- Scalar comparison kernel (`np.greater` / `np.less` on the modelled
scalar fragment); array comparisons are outside the fragment used by any
theorem. -/
def rawCompare (op : ℝ → ℝ → Bool) : Raw → Raw → Except Err Raw
  | Raw.f x, Raw.f y => Except.ok (Raw.b (op x y))
  | _, _ => Except.error Err.typeError

/-- The collaborator's strict scalar comparison `np.greater`. -/
def npgreater (x y : ℝ) : Bool := decide (x > y)

/-- The collaborator's strict scalar comparison `np.less`. -/
def npless (x y : ℝ) : Bool := decide (x < y)

/-- Embeds the `EVAL_RULES` table: one numeric kernel per primitive, looked
up by token; `xla_call` has no entry (KeyError, the MissingRuleError of the
spec); a parameter set a kernel does not accept is a Python TypeError. -/
def eval_rules (prim : Primitive) (args : List Raw) (params : Params) :
    Except Err Raw :=
  match prim, args, params with
  | Primitive.add, [x, y], Params.noParams => rawBinop (fun a c => a + c) x y
  | Primitive.mul, [x, y], Params.noParams => rawBinop (fun a c => a * c) x y
  | Primitive.neg, [x], Params.noParams => rawUnop (fun a => -a) x
  | Primitive.sin, [x], Params.noParams => rawUnop Real.sin x
  | Primitive.cos, [x], Params.noParams => rawUnop Real.cos x
  | Primitive.greater, [x, y], Params.noParams => rawCompare npgreater x y
  | Primitive.less, [x, y], Params.noParams => rawCompare npless x y
  | Primitive.transpose, [x], Params.permP perm =>
      match x with
      | Raw.arr s d =>
          if sortAsc perm = List.range s.length then
            Except.ok (nptranspose s d perm)
          else Except.error Err.valueError
      | _ => Except.error Err.valueError
  | Primitive.broadcast, [x], Params.broadcastP shape axes =>
      match x with
      | Raw.arr s d => npbroadcast s d shape axes
      | Raw.f v => npbroadcast [] [v] shape axes
      | _ => Except.error Err.typeError
  | Primitive.reduce_sum, [x], Params.axisP ax =>
      match x with
      | Raw.arr s d =>
          if ax.all (fun k => decide (k < s.length)) && decide ax.Nodup then
            Except.ok (npsum s d ax)
          else Except.error Err.valueError
      | Raw.f v => if ax.isEmpty then Except.ok (Raw.f v) else Except.error Err.valueError
      | _ => Except.error Err.typeError
  | Primitive.xla_call, _, _ => Except.error Err.missingRule
  | _, _, _ => Except.error Err.typeError

/-- Raise every operand to the selected interpreter (the list comprehension
`[full_raise(interpreter, arg) for arg in args]` of `bind`); the first
failing operand's error propagates. -/
def raise_all (i : Interpreter) : List V → Except Err (List V)
  | [] => Except.ok []
  | a :: as =>
      match full_raise i a, raise_all i as with
      | Except.ok b, Except.ok bs => Except.ok (b :: bs)
      | Except.error e, _ => Except.error e
      | Except.ok _, Except.error e => Except.error e

/-- Python `isinstance(x, Tracer)`. -/
def isTracer : V → Bool
  | V.tracer _ _ _ => true
  | V.raw _ => false

/-- Unbox the raw value handed to a numeric kernel.  After raising to the
evaluation interpreter every operand is raw; a Tracer reaching a kernel
(impossible in a run of this codebase) is a type error. -/
def rawOfV : V → Except Err Raw
  | V.raw r => Except.ok r
  | V.tracer _ _ _ => Except.error Err.typeError

/-- The `t.primal` / `t.tangent` accesses of `JVPTrace.apply_prim`; a raw
value has neither attribute. -/
def primalTangentOf : V → Except Err (V × V)
  | V.tracer _ p t => Except.ok (p, t)
  | V.raw _ => Except.error Err.attributeError

/-- Unbox a whole operand list for a numeric kernel. -/
def raws_of : List V → Except Err (List Raw)
  | [] => Except.ok []
  | a :: as =>
      match rawOfV a, raws_of as with
      | Except.ok b, Except.ok bs => Except.ok (b :: bs)
      | Except.error e, _ => Except.error e
      | Except.ok _, Except.error e => Except.error e

/-- Unpack the primal/tangent pairs of a whole operand list
(`primals_in = [t.primal for t in tracers]` and its tangent twin). -/
def unpack_pt : List V → Except Err (List (V × V))
  | [] => Except.ok []
  | a :: as =>
      match primalTangentOf a, unpack_pt as with
      | Except.ok b, Except.ok bs => Except.ok (b :: bs)
      | Except.error e, _ => Except.error e
      | Except.ok _, Except.error e => Except.error e

/-- Read the process-wide state. -/
def mGet : M CoreState := fun st => (Except.ok st, st)

/-- Python `a + b` on operand values: a Tracer operand redirects through
`Tracer.__add__`/`__radd__` and `ShapedArray._add`/`_radd` into
`bind(add, a, b)` (operand order preserved); two raw numpy scalars/arrays
add directly in the collaborator. -/
def pyAdd (bindF : Primitive → List V → Params → M V) (a b : V) : M V :=
  if isTracer a || isTracer b then bindF Primitive.add [a, b] Params.noParams
  else match a, b with
    | V.raw ra, V.raw rb => mOfExcept ((rawBinop (fun x y => x + y) ra rb).map V.raw)
    | _, _ => mThrow Err.typeError

/-- Python `a * b` on operand values (see `pyAdd`). -/
def pyMul (bindF : Primitive → List V → Params → M V) (a b : V) : M V :=
  if isTracer a || isTracer b then bindF Primitive.mul [a, b] Params.noParams
  else match a, b with
    | V.raw ra, V.raw rb => mOfExcept ((rawBinop (fun x y => x * y) ra rb).map V.raw)
    | _, _ => mThrow Err.typeError

/-- Python unary `-a` on operand values: a Tracer redirects through
`Tracer.__neg__` into `bind(neg, a)`; a raw value negates in the
collaborator. -/
def pyNeg (bindF : Primitive → List V → Params → M V) (a : V) : M V :=
  if isTracer a then bindF Primitive.neg [a] Params.noParams
  else match a with
    | V.raw ra => mOfExcept ((rawUnop (fun x => -x) ra).map V.raw)
    | _ => mThrow Err.typeError

/-- Embeds the `JVP_RULES` table of autodiff.py, parameterized by the
dispatch function used for the primitive calls the rules make themselves
(re-entrant dispatch).  `jvp_greater`/`jvp_less` ignore their tangents and
mint `np.zeros_like(aval, aval.dtype)` from the primal output's abstract
value (see `zeros_like_aval`).  `xla_call` has no entry (KeyError, the
MissingRuleError of the spec); the final catch-all stands for the Python
ValueError/TypeError of a malformed unpacking or parameter set, which no
run of this codebase reaches. -/
def jvp_rules (bindF : Primitive → List V → Params → M V) (prim : Primitive)
    (primals tangents : List V) (params : Params) : M (V × V) :=
  match prim, primals, tangents, params with
  | Primitive.add, [x, y], [xd, yd], Params.noParams =>
      mBind (pyAdd bindF x y) (fun p =>
      mBind (pyAdd bindF xd yd) (fun t => mOk (p, t)))
  | Primitive.mul, [x, y], [xd, yd], Params.noParams =>
      mBind (pyMul bindF x y) (fun p =>
      mBind (pyMul bindF xd y) (fun t1 =>
      mBind (pyMul bindF x yd) (fun t2 =>
      mBind (pyAdd bindF t1 t2) (fun t => mOk (p, t)))))
  | Primitive.sin, [x], [xd], Params.noParams =>
      mBind (bindF Primitive.sin [x] Params.noParams) (fun p =>
      mBind (bindF Primitive.cos [x] Params.noParams) (fun c =>
      mBind (pyMul bindF c xd) (fun t => mOk (p, t))))
  | Primitive.cos, [x], [xd], Params.noParams =>
      mBind (bindF Primitive.cos [x] Params.noParams) (fun p =>
      mBind (bindF Primitive.sin [x] Params.noParams) (fun s =>
      mBind (pyNeg bindF s) (fun ns =>
      mBind (pyMul bindF ns xd) (fun t => mOk (p, t)))))
  | Primitive.neg, [x], [xd], Params.noParams =>
      mBind (bindF Primitive.neg [x] Params.noParams) (fun p =>
      mBind (bindF Primitive.neg [xd] Params.noParams) (fun t => mOk (p, t)))
  | Primitive.greater, [x, y], _, Params.noParams =>
      mBind (bindF Primitive.greater [x, y] Params.noParams) (fun p =>
      mBind (mOfExcept (get_aval p)) (fun aval =>
      mOk (p, V.raw (zeros_like_aval aval))))
  | Primitive.less, [x, y], _, Params.noParams =>
      mBind (bindF Primitive.less [x, y] Params.noParams) (fun p =>
      mBind (mOfExcept (get_aval p)) (fun aval =>
      mOk (p, V.raw (zeros_like_aval aval))))
  | Primitive.transpose, [x], [xd], Params.permP perm =>
      mBind (bindF Primitive.transpose [x] (Params.permP perm)) (fun p =>
      mBind (bindF Primitive.transpose [xd] (Params.permP perm)) (fun t =>
      mOk (p, t)))
  | Primitive.broadcast, [x], [xd], Params.broadcastP sh ax =>
      mBind (bindF Primitive.broadcast [x] (Params.broadcastP sh ax)) (fun p =>
      mBind (bindF Primitive.broadcast [xd] (Params.broadcastP sh ax)) (fun t =>
      mOk (p, t)))
  | Primitive.reduce_sum, [x], [xd], Params.axisP ax =>
      mBind (bindF Primitive.reduce_sum [x] (Params.axisP ax)) (fun p =>
      mBind (bindF Primitive.reduce_sum [xd] (Params.axisP ax)) (fun t =>
      mOk (p, t)))
  | Primitive.xla_call, _, _, _ => mThrow Err.missingRule
  | _, _, _, _ => mThrow Err.valueError

/-- Dispatch of the `interp` capability: `EvalInterpreter.interp` unboxes
the operands and calls the `EVAL_RULES` kernel; the JVP interpreter's rule
application (`JVPTrace.apply_prim` in autodiff.py) unpacks primal/tangent
from each operand Tracer, applies the `JVP_RULES` entry, and wraps the
resulting pair into a new Tracer at this interpreter. -/
def interp (bindF : Primitive → List V → Params → M V) (i : Interpreter)
    (prim : Primitive) (tracers : List V) (params : Params) : M V :=
  match i.kind with
  | IKind.eval =>
      mBind (mOfExcept (raws_of tracers)) (fun raws =>
      mBind (mOfExcept (eval_rules prim raws params)) (fun out =>
      mOk (V.raw out)))
  | IKind.jvp =>
      mBind (mOfExcept (unpack_pt tracers)) (fun pt =>
      mBind (jvp_rules bindF prim (pt.map Prod.fst) (pt.map Prod.snd) params)
        (fun out => mOk (V.tracer i out.1 out.2)))

/-- Embeds `bind` of core.py: select the top interpreter, raise every
operand to it, run its interpretation rule, and lower the result.  The
first argument is descending fuel bounding the re-entrant recursion depth
through JVP rules (the Python recursion is bounded by the finite nesting of
tracers in any actual run; every verified run stays strictly below its
budget, never reaching `outOfFuel`). -/
def bind : Nat → Primitive → List V → Params → M V
  | 0, _, _, _ => mThrow Err.outOfFuel
  | n + 1, prim, args, params =>
      mBind mGet (fun st =>
      let top := find_top_interpreter st args
      mBind (mOfExcept (raise_all top args)) (fun tracers =>
      mBind (interp (bind n) top prim tracers params) (fun out =>
      mOk (full_lower out))))

/-- Result of a host function under `jvp`: a single output value or a
tuple/list of outputs. -/
inductive FnOut where
  | single (v : V)
  | multi (vs : List V)

/-- Embeds `lower_fn_output` of autodiff.py: raise the function output to
the JVP interpreter, then read `.primal` / `.tangent`. -/
def lower_fn_output (trace : Interpreter) (fn_out : V) : M (V × V) :=
  mBind (mOfExcept (full_raise trace fn_out)) (fun t =>
    match t with
    | V.tracer _ p tg => mOk (p, tg)
    | V.raw _ => mThrow Err.attributeError)

/-- Embeds `jvp(fn, primals, tangents)` of autodiff.py.  The tuple
normalization of `primals`/`tangents` is implicit in the list-typed
signature.  Input tracers pair each primal with its tangent by `zip` (which
silently truncates to the shorter list).  Modelled from the spec: the scope
push uses `new_interpreter` of core.py — autodiff.py names it
`new_main_trace` and wraps the yielded object as `JVPTrace(main_trace)`,
names that are not defined under src/; per the spec this is "push a fresh
JVP interpreter scope", so the pushed JVP interpreter itself plays the role
of `trace`.  The multi-output branch mirrors `zip(*out_primals_tangents)`,
whose unpacking fails on an empty output list. -/
def jvp_body (fn : List V → M FnOut) (primals tangents : List V)
    (trace : Interpreter) : M (FnOut × FnOut) :=
  let in_tracers := (primals.zip tangents).map (fun pt => V.tracer trace pt.1 pt.2)
  mBind (fn in_tracers) (fun outs =>
    match outs with
    | FnOut.single v =>
        mBind (lower_fn_output trace v) (fun pt =>
          mOk (FnOut.single pt.1, FnOut.single pt.2))
    | FnOut.multi [] => mThrow Err.valueError
    | FnOut.multi vs =>
        mBind (mMapM (lower_fn_output trace) vs) (fun pts =>
          mOk (FnOut.multi (pts.map Prod.fst), FnOut.multi (pts.map Prod.snd))))

/-- The jvp entry point proper: the body above runs inside a fresh JVP
interpreter scope. -/
def jvp (fn : List V → M FnOut) (primals tangents : List V) : M (FnOut × FnOut) :=
  new_interpreter IKind.jvp (jvp_body fn primals tangents)

/-- Syntax of the host functions of one real variable built from the
differentiable primitive surface {add, mul, neg, sin, cos} (wrappers of
`PrimitiveOperator`) and real constants. -/
inductive Expr where
  | x
  | const (c : ℝ)
  | add (a b : Expr)
  | mul (a b : Expr)
  | neg (a : Expr)
  | sin (a : Expr)
  | cos (a : Expr)

/-- Run an `Expr` as host code on an operand value: every node is one call
of the corresponding `PrimitiveOperator` wrapper, i.e. one `bind`. -/
def evalTraced (F : Nat) : Expr → V → M V
  | Expr.x, xv => mOk xv
  | Expr.const c, _ => mOk (V.raw (Raw.f c))
  | Expr.add a b, xv =>
      mBind (evalTraced F a xv) (fun va =>
      mBind (evalTraced F b xv) (fun vb =>
      bind F Primitive.add [va, vb] Params.noParams))
  | Expr.mul a b, xv =>
      mBind (evalTraced F a xv) (fun va =>
      mBind (evalTraced F b xv) (fun vb =>
      bind F Primitive.mul [va, vb] Params.noParams))
  | Expr.neg a, xv =>
      mBind (evalTraced F a xv) (fun va =>
      bind F Primitive.neg [va] Params.noParams)
  | Expr.sin a, xv =>
      mBind (evalTraced F a xv) (fun va =>
      bind F Primitive.sin [va] Params.noParams)
  | Expr.cos a, xv =>
      mBind (evalTraced F a xv) (fun va =>
      bind F Primitive.cos [va] Params.noParams)

/-- The host callable `fn` passed to `jvp` for an `Expr` of one variable:
Python `fn(*in_tracers)` raises a TypeError unless exactly one tracer is
supplied. -/
def exprFn (F : Nat) (e : Expr) : List V → M FnOut := fun args =>
  match args with
  | [xv] => mBind (evalTraced F e xv) (fun v => mOk (FnOut.single v))
  | _ => mThrow Err.typeError

/-- Mathematical denotation of an `Expr`. -/
def Expr.evalR : Expr → ℝ → ℝ
  | Expr.x, t => t
  | Expr.const c, _ => c
  | Expr.add a b, t => a.evalR t + b.evalR t
  | Expr.mul a b, t => a.evalR t * b.evalR t
  | Expr.neg a, t => -a.evalR t
  | Expr.sin a, t => Real.sin (a.evalR t)
  | Expr.cos a, t => Real.cos (a.evalR t)

/-- Analytic derivative of the denotation (the tangent the JVP rules
compute for seed 1, written with the exact operand order of the rules). -/
def Expr.derivR : Expr → ℝ → ℝ
  | Expr.x, _ => 1
  | Expr.const _, _ => 0
  | Expr.add a b, t => a.derivR t + b.derivR t
  | Expr.mul a b, t => a.derivR t * b.evalR t + a.evalR t * b.derivR t
  | Expr.neg a, t => -a.derivR t
  | Expr.sin a, t => Real.cos (a.evalR t) * a.derivR t
  | Expr.cos a, t => -Real.sin (a.evalR t) * a.derivR t

/-- Number of axes `np.ndim(x)` of an operand value (a Tracer delegates to
its abstract value, whose shape is that of the innermost primal). -/
def ndimV : V → Nat
  | V.raw r => (rawShape r).length
  | V.tracer _ p _ => ndimV p

/-- Argument accepted by the `reduce_sum` operator wrapper: omitted/None,
a Python int, or a tuple of ints. -/
inductive AxisArg where
  | noAxis
  | intAxis (k : Nat)
  | tupleAxis (t : List Nat)

/-- Embeds `PrimitiveOperator.reduce_sum(x, axis=None)`: `None` becomes
`tuple(range(np.ndim(x)))`, an int `k` becomes `(k,)`, then the call is
bound.  `F` is the dispatch recursion budget (see `bind`). -/
def reduce_sum_op (F : Nat) (x : V) (axis : AxisArg) : M V :=
  let ax := match axis with
    | AxisArg.noAxis => List.range (ndimV x)
    | AxisArg.intAxis k => [k]
    | AxisArg.tupleAxis t => t
  bind F Primitive.reduce_sum [x] (Params.axisP ax)

/-- Embeds `Tracer.__bool__`: dispatch through the abstract value's
`_bool`.  `ShapedArray._bool` raises ("can't be unambiguously converted to
bool", the AmbiguityError of the spec); `ConcreteArray._bool` returns
`bool(tracer.aval.val)`, which for a numpy array of size other than one is
itself a ValueError ("truth value ... is ambiguous") in the collaborator. -/
def tracer_bool (a : Aval) : Except Err Bool :=
  match a with
  | Aval.shaped _ _ => Except.error Err.ambiguity
  | Aval.concrete v =>
      match v with
      | Raw.f x => Except.ok (decide (x ≠ 0))
      | Raw.b b => Except.ok b
      | Raw.arr s d =>
          if s.prod = 1 then Except.ok (decide (d.getD 0 0 ≠ 0))
          else Except.error Err.valueError
      | Raw.obj => Except.ok true

/-- Python class of an abstract value (`type(self) is type(other)` in
`ShapedArray.__eq__`): `true` for the ConcreteArray refinement. -/
def Aval.isConcrete : Aval → Bool
  | Aval.shaped _ _ => false
  | Aval.concrete _ => true

/-- Embeds `ShapedArray.__eq__` (inherited unchanged by ConcreteArray):
same Python class, equal shape, equal dtype; a ConcreteArray's literal
value takes no part. -/
def avalEq (a b : Aval) : Bool :=
  (a.isConcrete == b.isConcrete) && (a.shape == b.shape) && (a.dtype == b.dtype)

/-- Embeds `ShapedArray.__hash__` (inherited unchanged by ConcreteArray):
`hash((self.shape, self.dtype))`, modelled as the hashed tuple itself so
that tuple equality is exactly hash equality. -/
def avalHash (a : Aval) : List Nat × DType := (a.shape, a.dtype)

/-- The fresh JVP interpreter a top-level `jvp` call pushes: level 1 (the
stack holds only the base interpreter when it is constructed). -/
def topJvpInterpreter : Interpreter := ⟨1, 1, IKind.jvp⟩

/-- The process-wide state while the body of a top-level `jvp` call runs. -/
def stateInJvp : CoreState := ⟨[evalInterpreter, topJvpInterpreter], none⟩

/-- A computation that leaves the process-wide state unchanged.  All of the
dispatch machinery only reads the state; the scope context managers are the
sole writers. -/
def preservesState {α : Type} (m : M α) : Prop := ∀ st, (m st).2 = st

/-- The primal chain of a value bottoms out in a supported raw value.  True
of every value an actual run constructs; `get_aval` succeeds exactly on
these. -/
def primalChainSupported : V → Bool
  | V.raw r => rawSupported r
  | V.tracer _ p _ => primalChainSupported p

/-- A scalar Tracer of the top-level jvp scope carrying primal `p` and
tangent `t`. -/
def Tr (p t : ℝ) : V :=
  V.tracer topJvpInterpreter (V.raw (Raw.f p)) (V.raw (Raw.f t))

end

/-! Theorems.  Each claim of the specification gets one theorem below;
helper lemmas come first. -/

theorem get_aval_ok_of_supported (v : V) (h : primalChainSupported v = true) :
    ∃ a, get_aval v = Except.ok a := by
  induction v with
  | raw r =>
      refine ⟨Aval.concrete r, ?_⟩
      simp only [get_aval]
      rw [primalChainSupported] at h
      simp [h]
  | tracer i p t ihp iht =>
      rw [primalChainSupported] at h
      exact ihp h

/-- Claim C6's failing input, evaluated: the JVP interpreter's `pure` on the
supported raw array `np.array([1., 2., 3.])` produces a Tracer whose tangent
is the 0-dimensional float zero — shape `()`, not the operand's shape
`(3,)` (`np.zeros_like` applied to the abstract-value object ignores its
`shape` attribute) — although the dtype does match. -/
theorem c6_zero_tangent_wrong_shape :
    pureI topJvpInterpreter (V.raw (Raw.arr [3] [1, 2, 3]))
      = Except.ok (V.tracer topJvpInterpreter (V.raw (Raw.arr [3] [1, 2, 3]))
          (V.raw (Raw.f 0)))
    ∧ rawShape (Raw.f 0) = []
    ∧ rawShape (Raw.arr [3] [1, 2, 3]) = [3]
    ∧ rawDtype (Raw.f 0) = rawDtype (Raw.arr [3] [1, 2, 3]) :=
  ⟨rfl, rfl, rfl, rfl⟩

/-- Counterexample to claim C8 as stated: a Tracer whose abstract value is
concrete over the two-element literal `np.array([1., 2.])` does not coerce
to bool — the collaborator raises ValueError — even though the abstract
value is a ConcreteArray. -/
theorem c8_counterexample :
    tracer_bool (Aval.concrete (Raw.arr [2] [1, 2])) = Except.error Err.valueError
    ∧ (Aval.concrete (Raw.arr [2] [1, 2])).isConcrete = true :=
  ⟨rfl, rfl⟩

/-- Claim C8, amended: boolean coercion of a Tracer succeeds exactly when
its abstract value is concrete AND the literal has exactly one element; a
non-concrete ShapedArray fails with the AmbiguityError; a concrete scalar
returns the truth value of the literal. -/
theorem c8_bool_coercion (a : Aval) :
    ((∃ bv, tracer_bool a = Except.ok bv) ↔ a.isConcrete = true ∧ a.shape.prod = 1)
    ∧ (a.isConcrete = false → tracer_bool a = Except.error Err.ambiguity)
    ∧ (∀ x : ℝ, a = Aval.concrete (Raw.f x) →
        tracer_bool a = Except.ok (decide (x ≠ 0))) := by
  refine ⟨?_, ?_, ?_⟩
  · cases a with
    | shaped s d => simp [tracer_bool, Aval.isConcrete]
    | concrete v =>
        cases v with
        | f x =>
            simp only [tracer_bool, Aval.isConcrete, Aval.shape, rawShape, true_and]
            constructor
            · intro _; rfl
            · intro _; exact ⟨decide (x ≠ 0), rfl⟩
        | b bv => simp [tracer_bool, Aval.isConcrete, Aval.shape, rawShape]
        | arr s dt =>
            simp only [tracer_bool, Aval.isConcrete, Aval.shape, rawShape, true_and]
            by_cases h : s.prod = 1
            · simp only [h, if_pos]
              constructor
              · intro _; trivial
              · intro _; exact ⟨decide (dt.getD 0 0 ≠ 0), rfl⟩
            · simp [h]
        | obj => simp [tracer_bool, Aval.isConcrete, Aval.shape, rawShape]
  · cases a with
    | shaped s d => intro _; rfl
    | concrete v => simp [Aval.isConcrete]
  · intro x hx; subst hx; rfl

/-- Counterexample to claim C9 as stated: a plain ShapedArray and a
ConcreteArray with identical shape and dtype are NOT equal — `__eq__`
requires `type(self) is type(other)` — so abstract-value equality is not
determined by (shape, dtype) across the refinement. -/
theorem c9_counterexample :
    avalEq (Aval.shaped [] DType.float64) (Aval.concrete (Raw.f 1)) = false
    ∧ (Aval.shaped [] DType.float64).shape = (Aval.concrete (Raw.f 1)).shape
    ∧ (Aval.shaped [] DType.float64).dtype = (Aval.concrete (Raw.f 1)).dtype :=
  ⟨rfl, rfl, rfl⟩

/-- Claim C9, amended: abstract values are equal iff they are of the same
Python class AND have equal shape and equal dtype (a ConcreteArray's
literal value takes no part), and equal abstract values have equal hashes. -/
theorem c9_aval_eq_hash (a b : Aval) :
    (avalEq a b = true ↔
      a.isConcrete = b.isConcrete ∧ a.shape = b.shape ∧ a.dtype = b.dtype)
    ∧ (avalEq a b = true → avalHash a = avalHash b) := by
  constructor
  · simp [avalEq, Bool.and_eq_true, and_assoc]
  · intro h
    simp only [avalEq, Bool.and_eq_true, beq_iff_eq] at h
    simp [avalHash, h.1.2, h.2]

theorem mOk_preserves {α : Type} (a : α) : preservesState (mOk a) := fun _ => rfl

theorem mThrow_preserves {α : Type} (e : Err) :
    preservesState (mThrow e : M α) := fun _ => rfl

theorem mOfExcept_preserves {α : Type} (x : Except Err α) :
    preservesState (mOfExcept x : M α) := fun _ => rfl

theorem mBind_preserves {α β : Type} {m : M α} {f : α → M β}
    (hm : preservesState m) (hf : ∀ a, preservesState (f a)) :
    preservesState (mBind m f) := by
  intro st
  have h2 := hm st
  unfold mBind
  rcases hmst : m st with ⟨r, st'⟩
  rw [hmst] at h2
  cases r with
  | ok a =>
      dsimp only
      rw [show st' = st from h2]
      exact hf a st
  | error e => exact h2

theorem mMapM_preserves {α β : Type} (f : α → M β)
    (hf : ∀ a, preservesState (f a)) (l : List α) :
    preservesState (mMapM f l) := by
  induction l with
  | nil => exact mOk_preserves _
  | cons a as ih =>
      exact mBind_preserves (hf a)
        (fun _ => mBind_preserves ih (fun _ => mOk_preserves _))

theorem lower_fn_output_preserves (trace : Interpreter) (v : V) :
    preservesState (lower_fn_output trace v) := by
  unfold lower_fn_output
  refine mBind_preserves (mOfExcept_preserves _) ?_
  intro a
  cases a with
  | tracer i p t => exact mOk_preserves _
  | raw r => exact mThrow_preserves _

theorem jvp_body_preserves (fn : List V → M FnOut)
    (hfn : ∀ args, preservesState (fn args)) (primals tangents : List V)
    (trace : Interpreter) :
    preservesState (jvp_body fn primals tangents trace) := by
  unfold jvp_body
  refine mBind_preserves (hfn _) ?_
  intro outs
  cases outs with
  | single v =>
      exact mBind_preserves (lower_fn_output_preserves _ _)
        (fun _ => mOk_preserves _)
  | multi vs =>
      cases vs with
      | nil => exact mThrow_preserves _
      | cons a as =>
          exact mBind_preserves
            (mMapM_preserves _ (fun w => lower_fn_output_preserves _ w) _)
            (fun _ => mOk_preserves _)

theorem new_interpreter_restores {α : Type} (kind : IKind)
    (body : Interpreter → M α) (hbody : ∀ i, preservesState (body i)) :
    preservesState (new_interpreter kind body) := by
  intro st
  unfold new_interpreter
  dsimp only
  rw [hbody _ _]
  cases st with
  | mk stack dyn => simp

/-- Claim C2: any jvp call restores the interpreter stack and the
dynamic-override slot to their exact pre-call state, whether the traced
function returns normally or raises — for every host function that itself
only reads the process-wide state (every function composed from the
operator surface is such, and so are scope-balanced ones).  The scope pops
exactly the entry it pushed on every exit path. -/
theorem c2_jvp_restores_state (fn : List V → M FnOut)
    (hfn : ∀ args, preservesState (fn args))
    (primals tangents : List V) (st : CoreState) :
    (jvp fn primals tangents st).2 = st :=
  new_interpreter_restores IKind.jvp _
    (fun i => jvp_body_preserves fn hfn primals tangents i) st

/-- Witness for C2 at a host function that raises immediately (the error
propagation path): the state after the failed jvp call is the initial
state. -/
theorem c2_jvp_restores_state_witness :
    (jvp (fun _ => mThrow Err.typeError) [V.raw (Raw.f 1)] [V.raw (Raw.f 1)]
      initState).2 = initState :=
  c2_jvp_restores_state _ (fun _ _ => rfl) _ _ _

theorem foldl_maxByLevel_spec (t : List Interpreter) (h : Interpreter) :
    (t.foldl (fun m i => if i.level > m.level then i else m) h = h
      ∨ t.foldl (fun m i => if i.level > m.level then i else m) h ∈ t)
    ∧ h.level ≤ (t.foldl (fun m i => if i.level > m.level then i else m) h).level
    ∧ ∀ i ∈ t, i.level ≤ (t.foldl (fun m i => if i.level > m.level then i else m) h).level := by
  induction t generalizing h with
  | nil => simp
  | cons a t ih =>
      simp only [List.foldl_cons]
      rcases ih (if a.level > h.level then a else h) with ⟨hmem, hle, hall⟩
      refine ⟨?_, ?_, ?_⟩
      · rcases hmem with he | hm
        · rw [he]
          by_cases hc : a.level > h.level
          · right
            simp [hc]
          · left
            simp [hc]
        · right
          exact List.mem_cons_of_mem _ hm
      · refine le_trans ?_ hle
        by_cases hc : a.level > h.level
        · simp only [hc, if_pos]
          exact le_of_lt hc
        · simp [hc]
      · intro i hi
        rcases List.mem_cons.mp hi with rfl | hi'
        · refine le_trans ?_ hle
          by_cases hc : i.level > h.level
          · simp [hc]
          · rw [if_neg hc]
            exact Nat.le_of_not_lt hc
        · exact hall i hi'

theorem maxByLevel_spec (l : List Interpreter) (d : Interpreter) (hl : l ≠ []) :
    maxByLevel l d ∈ l ∧ ∀ i ∈ l, i.level ≤ (maxByLevel l d).level := by
  cases l with
  | nil => exact absurd rfl hl
  | cons h t =>
      simp only [maxByLevel]
      rcases foldl_maxByLevel_spec t h with ⟨hmem, hle, hall⟩
      constructor
      · rcases hmem with he | hm
        · rw [he]
          exact List.mem_cons_self _ _
        · exact List.mem_cons_of_mem _ hm
      · intro i hi
        rcases List.mem_cons.mp hi with rfl | hi'
        · exact hle
        · exact hall i hi'

/-- Claim C3: dispatch selects the maximum-level interpreter among the
interpreters of the Tracer operands — the base evaluation interpreter when
no operand is a Tracer — and the dynamic-override interpreter takes its
place exactly when its level is strictly greater. -/
theorem c3_find_top_selection (st : CoreState) (args : List V)
    (hbase : st.stack.head? = some evalInterpreter) :
    (args.filterMap V.interpreterOf = [] →
      find_top_interpreter st args =
        (match st.dyn with
         | some d => if d.level > evalInterpreter.level then d else evalInterpreter
         | none => evalInterpreter))
    ∧ (args.filterMap V.interpreterOf ≠ [] →
      maxByLevel (args.filterMap V.interpreterOf) evalInterpreter
          ∈ args.filterMap V.interpreterOf
      ∧ (∀ i ∈ args.filterMap V.interpreterOf,
          i.level ≤ (maxByLevel (args.filterMap V.interpreterOf) evalInterpreter).level)
      ∧ find_top_interpreter st args =
          (match st.dyn with
           | some d =>
               if d.level > (maxByLevel (args.filterMap V.interpreterOf) evalInterpreter).level
               then d else maxByLevel (args.filterMap V.interpreterOf) evalInterpreter
           | none => maxByLevel (args.filterMap V.interpreterOf) evalInterpreter)) := by
  have hD : st.stack.headD evalInterpreter = evalInterpreter := by
    cases hs : st.stack with
    | nil => rw [hs] at hbase; cases hbase
    | cons a t =>
        rw [hs] at hbase
        simp only [List.head?_cons, Option.some.injEq] at hbase
        rw [hbase]
        rfl
  constructor
  · intro hempty
    unfold find_top_interpreter
    rw [hempty, hD]
    rfl
  · intro hne
    rcases maxByLevel_spec (args.filterMap V.interpreterOf) evalInterpreter hne
      with ⟨hmem, hall⟩
    refine ⟨hmem, hall, ?_⟩
    unfold find_top_interpreter
    rw [hD]

/-- Witness for C3 at a raw-only operand list in the initial state: the
base evaluation interpreter is selected. -/
theorem c3_find_top_selection_witness :
    find_top_interpreter initState [V.raw (Raw.f 0)] = evalInterpreter :=
  (c3_find_top_selection initState [V.raw (Raw.f 0)] rfl).1 rfl

/-- Claim C4: exact case analysis of operand normalization.  A Tracer
already at the selected interpreter passes through unchanged; a strictly
lower-level Tracer goes through `top.lift` (and succeeds whenever its
primal chain carries supported values, which is every value an actual run
constructs); a strictly higher-level Tracer raises the LevelError; a
distinct same-level interpreter instance raises the
InterpreterConflictError; a raw value of supported type goes through
`top.pure` and succeeds; a raw value of unsupported type raises the
UnsupportedTypeError. -/
theorem c4_full_raise_cases (i : Interpreter) (v : V) :
    (∀ o p t, v = V.tracer o p t →
      (o = i → full_raise i v = Except.ok v)
      ∧ (o.level < i.level → full_raise i v = liftI i v
          ∧ (primalChainSupported v = true → ∃ w, full_raise i v = Except.ok w))
      ∧ (o.level > i.level →
          full_raise i v = Except.error (Err.levelError o.level i.level))
      ∧ (o ≠ i → o.level = i.level →
          full_raise i v = Except.error Err.interpreterConflict))
    ∧ (∀ r, v = V.raw r →
      (rawSupported r = true →
        full_raise i v = pureI i v ∧ ∃ w, full_raise i v = Except.ok w)
      ∧ (rawSupported r = false →
        full_raise i v = Except.error Err.unsupportedType)) := by
  constructor
  · intro o p t hv
    subst hv
    refine ⟨?_, ?_, ?_, ?_⟩
    · intro heq
      subst heq
      simp [full_raise]
    · intro hlt
      have hne : o ≠ i := by
        intro hcon
        subst hcon
        exact lt_irrefl _ hlt
      have heq : full_raise i (V.tracer o p t) = liftI i (V.tracer o p t) := by
        simp only [full_raise]
        rw [if_neg hne, if_pos hlt]
      refine ⟨heq, ?_⟩
      intro hsup
      rw [heq]
      unfold liftI
      cases i.kind with
      | eval => exact ⟨_, rfl⟩
      | jvp =>
          unfold to_tracer
          rcases get_aval_ok_of_supported _ hsup with ⟨a, ha⟩
          rw [ha]
          exact ⟨_, rfl⟩
    · intro hgt
      have hne : o ≠ i := by
        intro hcon
        subst hcon
        exact lt_irrefl _ hgt
      have hnlt : ¬ o.level < i.level := not_lt_of_gt hgt
      simp only [full_raise]
      rw [if_neg hne, if_neg hnlt, if_pos hgt]
    · intro hne hlev
      have hnlt : ¬ o.level < i.level := by rw [hlev]; exact lt_irrefl _
      have hngt : ¬ o.level > i.level := by rw [hlev]; exact lt_irrefl _
      simp only [full_raise]
      rw [if_neg hne, if_neg hnlt, if_neg hngt]
  · intro r hv
    subst hv
    constructor
    · intro hsup
      have heq : full_raise i (V.raw r) = pureI i (V.raw r) := by
        simp only [full_raise]
        rw [hsup]
        rfl
      refine ⟨heq, ?_⟩
      rw [heq]
      unfold pureI
      cases i.kind with
      | eval => exact ⟨_, rfl⟩
      | jvp =>
          unfold to_tracer
          have hps : primalChainSupported (V.raw r) = true := by
            rw [primalChainSupported]
            exact hsup
          rcases get_aval_ok_of_supported (V.raw r) hps with ⟨a, ha⟩
          rw [ha]
          exact ⟨_, rfl⟩
    · intro hunsup
      simp only [full_raise]
      rw [hunsup]
      rfl

theorem zip_take_min {α β : Type} :
    ∀ (ps : List α) (ts : List β),
      ps.zip ts = (ps.take (min ps.length ts.length)).zip
        (ts.take (min ps.length ts.length)) := by
  intro ps
  induction ps with
  | nil => intro ts; simp
  | cons a as ih =>
      intro ts
      cases ts with
      | nil => simp
      | cons b bs =>
          simp only [List.zip_cons_cons, List.length_cons, Nat.succ_min_succ,
            List.take_succ_cons]
          exact congrArg (List.cons (a, b)) (ih bs)

/-- Counterexample to claim C5 as stated: `jvp` with two primals and one
tangent — mismatched arity — does not fail with any error; the zip silently
drops the extra primal, the trace runs, and the call returns normally. -/
theorem c5_counterexample :
    (jvp (exprFn 2 Expr.x) [V.raw (Raw.f 1), V.raw (Raw.f 2)] [V.raw (Raw.f 1)]
        initState).1
      = Except.ok (FnOut.single (V.raw (Raw.f 1)), FnOut.single (V.raw (Raw.f 1)))
    ∧ ([V.raw (Raw.f 1), V.raw (Raw.f 2)] : List V).length
        ≠ ([V.raw (Raw.f 1)] : List V).length := by
  exact ⟨rfl, by decide⟩

/-- Claim C5, amended: `jvp` performs no arity check at all — primals and
tangents are paired by `zip`, which silently truncates both lists to the
shorter length, and the trace then executes on the truncated pairs; no
ArityError exists in the code. -/
theorem c5_jvp_zip_truncation (fn : List V → M FnOut)
    (primals tangents : List V) (st : CoreState) :
    jvp fn primals tangents st =
      jvp fn (primals.take (min primals.length tangents.length))
        (tangents.take (min primals.length tangents.length)) st := by
  unfold jvp new_interpreter jvp_body
  rw [zip_take_min primals tangents]

/-- Claim C7: dispatching greater (resp. less) on two operands traced by a
JVP interpreter — in any state with the base evaluation interpreter at the
stack bottom and no dynamic override — produces the comparison of the
primals as the primal output and the boolean zero `False` as the tangent
output, whatever the operand tangents are (they do not appear in the
result).  `n + 2` is any sufficient dispatch recursion budget. -/
theorem c7_compare_zero_tangent (n : Nat) (J : Interpreter)
    (rest : List Interpreter) (x y : ℝ) (tx ty : V)
    (hJ : J.kind = IKind.jvp) :
    bind (n + 2) Primitive.greater
        [V.tracer J (V.raw (Raw.f x)) tx, V.tracer J (V.raw (Raw.f y)) ty]
        Params.noParams ⟨evalInterpreter :: rest, none⟩
      = (Except.ok (V.tracer J (V.raw (Raw.b (npgreater x y))) (V.raw (Raw.b false))),
          ⟨evalInterpreter :: rest, none⟩)
    ∧ bind (n + 2) Primitive.less
        [V.tracer J (V.raw (Raw.f x)) tx, V.tracer J (V.raw (Raw.f y)) ty]
        Params.noParams ⟨evalInterpreter :: rest, none⟩
      = (Except.ok (V.tracer J (V.raw (Raw.b (npless x y))) (V.raw (Raw.b false))),
          ⟨evalInterpreter :: rest, none⟩) := by
  obtain ⟨lev, uid, kind⟩ := J
  dsimp only at hJ
  subst hJ
  constructor <;>
    simp only [bind, mGet, mBind_apply, mOk_apply, mOfExcept_apply,
      mThrow_apply, find_top_interpreter, V.interpreterOf,
      List.map_cons, List.map_nil,
      List.filterMap_cons, List.filterMap_nil, maxByLevel, List.foldl_cons,
      List.foldl_nil, lt_self_iff_false, ite_self, List.headD, full_raise,
      raise_all, eq_self_iff_true, if_true, interp, unpack_pt,
      primalTangentOf, raws_of, rawOfV, jvp_rules, eval_rules, rawCompare,
      get_aval, rawSupported, if_false, zeros_like_aval, zeroOfDtype,
      Aval.dtype, rawDtype, pureI, liftI, to_tracer, full_lower,
      evalInterpreter]

/-- Witness for C7 at concrete inputs 3 and 1 with nonzero tangents 5, 7. -/
theorem c7_compare_zero_tangent_witness :
    bind 2 Primitive.greater
        [V.tracer (Interpreter.mk 1 1 IKind.jvp) (V.raw (Raw.f 3)) (V.raw (Raw.f 5)),
          V.tracer (Interpreter.mk 1 1 IKind.jvp) (V.raw (Raw.f 1)) (V.raw (Raw.f 7))]
        Params.noParams ⟨[evalInterpreter], none⟩
      = (Except.ok (V.tracer (Interpreter.mk 1 1 IKind.jvp)
            (V.raw (Raw.b (npgreater 3 1))) (V.raw (Raw.b false))),
          ⟨[evalInterpreter], none⟩) :=
  (c7_compare_zero_tangent 0 (Interpreter.mk 1 1 IKind.jvp) [] 3 1
    (V.raw (Raw.f 5)) (V.raw (Raw.f 7)) rfl).1

/-- Witness for C4 at the same-level-distinct-instance case: the conflict
error is raised. -/
theorem c4_full_raise_cases_witness :
    full_raise (Interpreter.mk 1 1 IKind.jvp)
      (V.tracer (Interpreter.mk 1 0 IKind.jvp) (V.raw (Raw.f 2)) (V.raw (Raw.f 0)))
      = Except.error Err.interpreterConflict :=
  ((c4_full_raise_cases (Interpreter.mk 1 1 IKind.jvp)
      (V.tracer (Interpreter.mk 1 0 IKind.jvp) (V.raw (Raw.f 2)) (V.raw (Raw.f 0)))).1
    _ _ _ rfl).2.2.2 (by decide) rfl

theorem bind_add_tt (a da b db : ℝ) :
    bind 2 Primitive.add [Tr a da, Tr b db] Params.noParams stateInJvp
      = (Except.ok (Tr (a + b) (da + db)), stateInJvp) := rfl

theorem bind_add_tr (a da c : ℝ) :
    bind 2 Primitive.add [Tr a da, V.raw (Raw.f c)] Params.noParams stateInJvp
      = (Except.ok (Tr (a + c) (da + 0)), stateInJvp) := rfl

theorem bind_add_rt (c a da : ℝ) :
    bind 2 Primitive.add [V.raw (Raw.f c), Tr a da] Params.noParams stateInJvp
      = (Except.ok (Tr (c + a) (0 + da)), stateInJvp) := rfl

theorem bind_add_rr (c d : ℝ) :
    bind 2 Primitive.add [V.raw (Raw.f c), V.raw (Raw.f d)] Params.noParams stateInJvp
      = (Except.ok (V.raw (Raw.f (c + d))), stateInJvp) := rfl

theorem bind_mul_tt (a da b db : ℝ) :
    bind 2 Primitive.mul [Tr a da, Tr b db] Params.noParams stateInJvp
      = (Except.ok (Tr (a * b) (da * b + a * db)), stateInJvp) := rfl

theorem bind_mul_tr (a da c : ℝ) :
    bind 2 Primitive.mul [Tr a da, V.raw (Raw.f c)] Params.noParams stateInJvp
      = (Except.ok (Tr (a * c) (da * c + a * 0)), stateInJvp) := rfl

theorem bind_mul_rt (c a da : ℝ) :
    bind 2 Primitive.mul [V.raw (Raw.f c), Tr a da] Params.noParams stateInJvp
      = (Except.ok (Tr (c * a) (0 * a + c * da)), stateInJvp) := rfl

theorem bind_mul_rr (c d : ℝ) :
    bind 2 Primitive.mul [V.raw (Raw.f c), V.raw (Raw.f d)] Params.noParams stateInJvp
      = (Except.ok (V.raw (Raw.f (c * d))), stateInJvp) := rfl

theorem bind_neg_t (a da : ℝ) :
    bind 2 Primitive.neg [Tr a da] Params.noParams stateInJvp
      = (Except.ok (Tr (-a) (-da)), stateInJvp) := rfl

theorem bind_neg_r (c : ℝ) :
    bind 2 Primitive.neg [V.raw (Raw.f c)] Params.noParams stateInJvp
      = (Except.ok (V.raw (Raw.f (-c))), stateInJvp) := rfl

theorem bind_sin_t (a da : ℝ) :
    bind 2 Primitive.sin [Tr a da] Params.noParams stateInJvp
      = (Except.ok (Tr (Real.sin a) (Real.cos a * da)), stateInJvp) := rfl

theorem bind_sin_r (c : ℝ) :
    bind 2 Primitive.sin [V.raw (Raw.f c)] Params.noParams stateInJvp
      = (Except.ok (V.raw (Raw.f (Real.sin c))), stateInJvp) := rfl

theorem bind_cos_t (a da : ℝ) :
    bind 2 Primitive.cos [Tr a da] Params.noParams stateInJvp
      = (Except.ok (Tr (Real.cos a) (-Real.sin a * da)), stateInJvp) := rfl

theorem bind_cos_r (c : ℝ) :
    bind 2 Primitive.cos [V.raw (Raw.f c)] Params.noParams stateInJvp
      = (Except.ok (V.raw (Raw.f (Real.cos c))), stateInJvp) := rfl

/-- Running host code built from the differentiable primitives on the input
tracer of a top-level jvp call produces either the (primal, tangent) tracer
carrying the denotation and its analytic derivative, or — for a subterm
built from constants only, which dispatches to the evaluation interpreter —
the raw denotation, whose derivative is zero.  The state is untouched. -/
theorem evalTraced_run (x : ℝ) : ∀ e : Expr,
    evalTraced 2 e (Tr x 1) stateInJvp
        = (Except.ok (Tr (e.evalR x) (e.derivR x)), stateInJvp)
      ∨ (evalTraced 2 e (Tr x 1) stateInJvp
            = (Except.ok (V.raw (Raw.f (e.evalR x))), stateInJvp)
          ∧ e.derivR x = 0) := by
  intro e
  induction e with
  | x => left; rfl
  | const c => right; exact ⟨rfl, rfl⟩
  | add a b iha ihb =>
      rcases iha with ha | ⟨ha, hda⟩ <;> rcases ihb with hb | ⟨hb, hdb⟩
      · left
        simp only [evalTraced, mBind_apply, ha, hb, Expr.evalR, Expr.derivR]
        exact bind_add_tt (a.evalR x) (a.derivR x) (b.evalR x) (b.derivR x)
      · left
        simp only [evalTraced, mBind_apply, ha, hb, Expr.evalR, Expr.derivR]
        rw [hdb]
        exact bind_add_tr (a.evalR x) (a.derivR x) (b.evalR x)
      · left
        simp only [evalTraced, mBind_apply, ha, hb, Expr.evalR, Expr.derivR]
        rw [hda]
        exact bind_add_rt (a.evalR x) (b.evalR x) (b.derivR x)
      · right
        simp only [evalTraced, mBind_apply, ha, hb, Expr.evalR, Expr.derivR]
        refine ⟨bind_add_rr (a.evalR x) (b.evalR x), ?_⟩
        rw [hda, hdb, add_zero]
  | mul a b iha ihb =>
      rcases iha with ha | ⟨ha, hda⟩ <;> rcases ihb with hb | ⟨hb, hdb⟩
      · left
        simp only [evalTraced, mBind_apply, ha, hb, Expr.evalR, Expr.derivR]
        exact bind_mul_tt (a.evalR x) (a.derivR x) (b.evalR x) (b.derivR x)
      · left
        simp only [evalTraced, mBind_apply, ha, hb, Expr.evalR, Expr.derivR]
        rw [hdb]
        exact bind_mul_tr (a.evalR x) (a.derivR x) (b.evalR x)
      · left
        simp only [evalTraced, mBind_apply, ha, hb, Expr.evalR, Expr.derivR]
        rw [hda]
        exact bind_mul_rt (a.evalR x) (b.evalR x) (b.derivR x)
      · right
        simp only [evalTraced, mBind_apply, ha, hb, Expr.evalR, Expr.derivR]
        refine ⟨bind_mul_rr (a.evalR x) (b.evalR x), ?_⟩
        rw [hda, hdb]
        simp
  | neg a iha =>
      rcases iha with ha | ⟨ha, hda⟩
      · left
        simp only [evalTraced, mBind_apply, ha, Expr.evalR, Expr.derivR]
        exact bind_neg_t (a.evalR x) (a.derivR x)
      · right
        simp only [evalTraced, mBind_apply, ha, Expr.evalR, Expr.derivR]
        refine ⟨bind_neg_r (a.evalR x), ?_⟩
        rw [hda, neg_zero]
  | sin a iha =>
      rcases iha with ha | ⟨ha, hda⟩
      · left
        simp only [evalTraced, mBind_apply, ha, Expr.evalR, Expr.derivR]
        exact bind_sin_t (a.evalR x) (a.derivR x)
      · right
        simp only [evalTraced, mBind_apply, ha, Expr.evalR, Expr.derivR]
        refine ⟨bind_sin_r (a.evalR x), ?_⟩
        rw [hda, mul_zero]
  | cos a iha =>
      rcases iha with ha | ⟨ha, hda⟩
      · left
        simp only [evalTraced, mBind_apply, ha, Expr.evalR, Expr.derivR]
        exact bind_cos_t (a.evalR x) (a.derivR x)
      · right
        simp only [evalTraced, mBind_apply, ha, Expr.evalR, Expr.derivR]
        refine ⟨bind_cos_r (a.evalR x), ?_⟩
        rw [hda, mul_zero]

/-- The tangents the JVP rules compute are the analytic derivatives: the
`Expr.derivR` table is exactly the Mathlib derivative of the denotation. -/
theorem expr_hasDerivAt (e : Expr) (x : ℝ) :
    HasDerivAt e.evalR (e.derivR x) x := by
  induction e with
  | x => exact hasDerivAt_id x
  | const c => exact hasDerivAt_const x c
  | add a b iha ihb => exact iha.add ihb
  | mul a b iha ihb => exact iha.mul ihb
  | neg a iha => exact iha.neg
  | sin a iha => exact iha.sin
  | cos a iha => exact iha.cos

theorem lower_tracer_run (vp vt : V) :
    lower_fn_output topJvpInterpreter (V.tracer topJvpInterpreter vp vt) stateInJvp
      = (Except.ok (vp, vt), stateInJvp) := rfl

theorem lower_raw_f_run (c : ℝ) :
    lower_fn_output topJvpInterpreter (V.raw (Raw.f c)) stateInJvp
      = (Except.ok (V.raw (Raw.f c), V.raw (Raw.f 0)), stateInJvp) := rfl

theorem new_interpreter_top_run {α : Type} (body : Interpreter → M α)
    (r : Except Err α)
    (h : body topJvpInterpreter stateInJvp = (r, stateInJvp)) :
    new_interpreter IKind.jvp body initState = (r, initState) := by
  unfold new_interpreter
  dsimp only
  have h' : body ⟨(initState.stack).length, (initState.stack).length, IKind.jvp⟩
      { initState with
        stack := initState.stack
          ++ [⟨(initState.stack).length, (initState.stack).length, IKind.jvp⟩] }
      = (r, stateInJvp) := h
  rw [h']
  rfl

theorem jvp_body_single_run (fn : List V → M FnOut) (x dx : ℝ) (v : V)
    (pt : V × V)
    (hfn : fn [V.tracer topJvpInterpreter (V.raw (Raw.f x)) (V.raw (Raw.f dx))]
        stateInJvp = (Except.ok (FnOut.single v), stateInJvp))
    (hlow : lower_fn_output topJvpInterpreter v stateInJvp
        = (Except.ok pt, stateInJvp)) :
    jvp_body fn [V.raw (Raw.f x)] [V.raw (Raw.f dx)] topJvpInterpreter stateInJvp
      = (Except.ok (FnOut.single pt.1, FnOut.single pt.2), stateInJvp) := by
  unfold jvp_body
  simp only [List.zip_cons_cons, List.zip_nil_right, List.map_cons, List.map_nil]
  rw [mBind_apply, hfn]
  dsimp only
  rw [mBind_apply, hlow]
  rfl

/-- The run half of claim C1: the top-level jvp of any host function built
from the differentiable primitive surface returns the pair of its
denotation and the tangent table's derivative, restoring the initial
state. -/
theorem c1_jvp_expr_run (e : Expr) (x : ℝ) :
    jvp (exprFn 2 e) [V.raw (Raw.f x)] [V.raw (Raw.f 1)] initState
      = (Except.ok (FnOut.single (V.raw (Raw.f (e.evalR x))),
          FnOut.single (V.raw (Raw.f (e.derivR x)))), initState) := by
  unfold jvp
  rcases evalTraced_run x e with h | ⟨h, hd⟩
  · refine new_interpreter_top_run _ _ ?_
    have hfn : exprFn 2 e [Tr x 1] stateInJvp
        = (Except.ok (FnOut.single (Tr (e.evalR x) (e.derivR x))), stateInJvp) := by
      show mBind (evalTraced 2 e (Tr x 1)) (fun u => mOk (FnOut.single u)) stateInJvp = _
      rw [mBind_apply, h]
      rfl
    exact jvp_body_single_run (exprFn 2 e) x 1 _
      (V.raw (Raw.f (e.evalR x)), V.raw (Raw.f (e.derivR x))) hfn
      (lower_tracer_run (V.raw (Raw.f (e.evalR x))) (V.raw (Raw.f (e.derivR x))))
  · refine new_interpreter_top_run _ _ ?_
    have hfn : exprFn 2 e [Tr x 1] stateInJvp
        = (Except.ok (FnOut.single (V.raw (Raw.f (e.evalR x)))), stateInJvp) := by
      show mBind (evalTraced 2 e (Tr x 1)) (fun u => mOk (FnOut.single u)) stateInJvp = _
      rw [mBind_apply, h]
      rfl
    have hres := jvp_body_single_run (exprFn 2 e) x 1 _
      (V.raw (Raw.f (e.evalR x)), V.raw (Raw.f 0)) hfn
      (lower_raw_f_run (e.evalR x))
    rw [hd]
    exact hres

/-- Claim C1: for every function built from {add, mul, neg, sin, cos} (and
real constants) and every real input, `jvp(fn, (x,), (1.0,))` returns the
pair of the function value and the analytic derivative at x — the returned
tangent `Expr.derivR` is `HasDerivAt`-certified — and in particular
`jvp(sin, (3.0,), (1.0,))` equals `(sin 3.0, cos 3.0)`. -/
theorem c1_jvp_expr_derivative (e : Expr) (x : ℝ) :
    jvp (exprFn 2 e) [V.raw (Raw.f x)] [V.raw (Raw.f 1)] initState
      = (Except.ok (FnOut.single (V.raw (Raw.f (e.evalR x))),
          FnOut.single (V.raw (Raw.f (e.derivR x)))), initState)
    ∧ HasDerivAt e.evalR (e.derivR x) x
    ∧ jvp (exprFn 2 (Expr.sin Expr.x)) [V.raw (Raw.f 3)] [V.raw (Raw.f 1)]
        initState
      = (Except.ok (FnOut.single (V.raw (Raw.f (Real.sin 3))),
          FnOut.single (V.raw (Raw.f (Real.cos 3)))), initState) := by
  refine ⟨c1_jvp_expr_run e x, expr_hasDerivAt e x, ?_⟩
  have h := c1_jvp_expr_run (Expr.sin Expr.x) 3
  simpa [Expr.evalR, Expr.derivR] using h

theorem sum_getD_range (d : List ℝ) :
    ((List.range d.length).map (fun i => d.getD i 0)).sum = d.sum := by
  induction d with
  | nil => simp
  | cons a t ih =>
      simp only [List.length_cons, List.range_succ_eq_map, List.map_cons,
        List.map_map, List.sum_cons, List.getD_cons_zero]
      have hmap : (List.range t.length).map ((fun i => (a :: t).getD i 0) ∘ Nat.succ)
          = (List.range t.length).map (fun i => t.getD i 0) := by
        apply List.map_congr_left
        intro i _
        simp [Function.comp, List.getD_cons_succ]
      rw [hmap, ih]

theorem idxOf_length (s : List Nat) : ∀ p : Nat, (idxOf s p).length = s.length := by
  induction s with
  | nil => intro p; rfl
  | cons n rest ih => intro p; simp [idxOf, ih]

theorem posOf_idxOf (s : List Nat) : ∀ p : Nat, p < s.prod →
    posOf s (idxOf s p) = p := by
  induction s with
  | nil =>
      intro p hp
      simp only [List.prod_nil] at hp
      simp only [posOf]
      omega
  | cons n rest ih =>
      intro p hp
      simp only [List.prod_cons] at hp
      have hB : 0 < rest.prod := by
        rcases Nat.eq_zero_or_pos rest.prod with h0 | h0
        · rw [h0, Nat.mul_zero] at hp
          omega
        · exact h0
      simp only [idxOf, posOf, List.headD, List.tail]
      rw [ih (p % rest.prod) (Nat.mod_lt _ hB)]
      rw [Nat.mul_comm (p / rest.prod) rest.prod]
      exact Nat.div_add_mod p rest.prod

theorem range_contains_mask (n : Nat) :
    (List.range n).map (fun j => (List.range n).contains j)
      = List.replicate n true := by
  rw [List.eq_replicate_iff]
  refine ⟨by simp, ?_⟩
  intro b hb
  rcases List.mem_map.mp hb with ⟨j, hj, rfl⟩
  simp [List.mem_range.mp hj]

theorem zip_replicate_true_keep (s : List Nat) :
    (s.zip (List.replicate s.length true)).filterMap
      (fun p => if p.2 then none else some p.1) = [] := by
  induction s with
  | nil => rfl
  | cons a t ih =>
      simp only [List.length_cons, List.replicate_succ, List.zip_cons_cons,
        List.filterMap_cons]
      simpa using ih

theorem zip_replicate_true_removed (s : List Nat) :
    (s.zip (List.replicate s.length true)).filterMap
      (fun p => if p.2 then some p.1 else none) = s := by
  induction s with
  | nil => rfl
  | cons a t ih =>
      simp only [List.length_cons, List.replicate_succ, List.zip_cons_cons,
        List.filterMap_cons]
      simpa using ih

theorem mergeIdx_replicate_true (oix : List Nat) :
    ∀ (n : Nat) (rix : List Nat), rix.length = n →
      mergeIdx oix rix (List.replicate n true) = rix := by
  intro n
  induction n with
  | zero =>
      intro rix h
      rw [List.length_eq_zero] at h
      subst h
      rfl
  | succ m ih =>
      intro rix h
      cases rix with
      | nil => cases h
      | cons r rs =>
          simp only [List.replicate_succ, mergeIdx, List.headD, List.tail]
          refine congrArg (List.cons r) (ih rs ?_)
          simpa using h

/-- Full reduction: `np.sum(x, axis=tuple(range(ndim)))` of a dense array is
the scalar sum of its elements. -/
theorem npsum_all (s : List Nat) (d : List ℝ) (hlen : d.length = s.prod)
    (hpos : 0 < s.length) :
    npsum s d (List.range s.length) = Raw.f d.sum := by
  have hne : (List.range s.length).isEmpty = false := by
    cases hs : s.length with
    | zero => omega
    | succ m => simp [List.range_succ_eq_map]
  unfold npsum
  rw [hne]
  simp only [Bool.false_eq_true, if_false]
  rw [range_contains_mask s.length, zip_replicate_true_keep s,
    zip_replicate_true_removed s]
  simp only [List.isEmpty_nil, if_true, List.prod_nil]
  have hdata : (List.range 1).map (fun po =>
      ((List.range s.prod).map (fun pr =>
        d.getD (posOf s (mergeIdx (idxOf ([] : List Nat) po) (idxOf s pr)
          (List.replicate s.length true))) 0)).sum)
      = [((List.range s.prod).map (fun pr => d.getD pr 0)).sum] := by
    have hinner : (List.range s.prod).map (fun pr =>
        d.getD (posOf s (mergeIdx (idxOf ([] : List Nat) 0) (idxOf s pr)
          (List.replicate s.length true))) 0)
        = (List.range s.prod).map (fun pr => d.getD pr 0) := by
      apply List.map_congr_left
      intro pr hpr
      rw [mergeIdx_replicate_true (idxOf ([] : List Nat) 0) s.length
          (idxOf s pr) (idxOf_length s pr),
        posOf_idxOf s pr (List.mem_range.mp hpr)]
    rw [show List.range 1 = [0] from rfl, List.map_cons, List.map_nil, hinner]
  rw [hdata]
  rw [show (([((List.range s.prod).map (fun pr => d.getD pr 0)).sum]).headD 0)
      = ((List.range s.prod).map (fun pr => d.getD pr 0)).sum from rfl]
  rw [← hlen, sum_getD_range]

/-- Claim C10: the `reduce_sum` operator wrapper normalizes an omitted/None
axis to the full tuple `range(ndim(x))` — so it sums over all axes, the
run on a dense array returning the scalar total — and normalizes an integer
axis `k` to the one-element tuple `(k,)`; in both cases the resulting call
is identical to the tuple form. -/
theorem c10_reduce_sum_axis_normalization (F : Nat) (x : V) (st : CoreState)
    (k : Nat) (s : List Nat) (d : List ℝ)
    (hlen : d.length = s.prod) (hpos : 0 < s.length) :
    reduce_sum_op F x AxisArg.noAxis st
        = reduce_sum_op F x (AxisArg.tupleAxis (List.range (ndimV x))) st
    ∧ reduce_sum_op F x (AxisArg.intAxis k) st
        = reduce_sum_op F x (AxisArg.tupleAxis [k]) st
    ∧ (reduce_sum_op 1 (V.raw (Raw.arr s d)) AxisArg.noAxis initState).1
        = Except.ok (V.raw (Raw.f d.sum)) := by
  refine ⟨rfl, rfl, ?_⟩
  have hall : (List.range s.length).all (fun j => decide (j < s.length)) = true := by
    simp [List.all_eq_true, List.mem_range]
  have hnd : decide (List.range s.length).Nodup = true := by
    simp [List.nodup_range]
  show (bind 1 Primitive.reduce_sum [V.raw (Raw.arr s d)]
      (Params.axisP (List.range s.length)) initState).1 = _
  simp only [bind, mGet, mBind_apply, mOk_apply, mOfExcept_apply,
    find_top_interpreter, V.interpreterOf, List.filterMap_cons,
    List.filterMap_nil, maxByLevel, initState, List.headD, raise_all,
    full_raise, rawSupported, pureI, evalInterpreter, interp, raws_of,
    rawOfV, eval_rules, hall, hnd, Bool.and_self, if_true, full_lower]
  rw [npsum_all s d hlen hpos]

/-- Witness for C10 on the concrete array `np.array([1., 2.])`. -/
theorem c10_reduce_sum_axis_normalization_witness :
    reduce_sum_op 1 (V.raw (Raw.arr [2] [1, 2])) AxisArg.noAxis initState
        = reduce_sum_op 1 (V.raw (Raw.arr [2] [1, 2]))
            (AxisArg.tupleAxis (List.range (ndimV (V.raw (Raw.arr [2] [1, 2])))))
            initState
    ∧ reduce_sum_op 1 (V.raw (Raw.arr [2] [1, 2])) (AxisArg.intAxis 0) initState
        = reduce_sum_op 1 (V.raw (Raw.arr [2] [1, 2])) (AxisArg.tupleAxis [0])
            initState
    ∧ (reduce_sum_op 1 (V.raw (Raw.arr [2] [1, 2])) AxisArg.noAxis initState).1
        = Except.ok (V.raw (Raw.f ([1, 2] : List ℝ).sum)) :=
  c10_reduce_sum_axis_normalization 1 (V.raw (Raw.arr [2] [1, 2])) initState 0
    [2] [1, 2] rfl (by decide)

end Autodidax
